import Mathlib

/-!
Verification of the differential statistical benchmarking harness
(`utils/opcode-timing.cpp`) against its design specification.

Modelling conventions:
* `long double` arithmetic is embedded exactly over `ℚ` (the spec treats the
  statistics as exact real computations); `sqrtl` is `Real.sqrt` on the cast.
* The VM execution oracle (`vm.run()`, `std::clock()`, `td::Timer`) is
  external: one iteration of the sampling loop observes an `OracleStep`,
  holding the raw clock/gas/return-code outcome of the baseline call, the raw
  outcome of the measured call, and the `t0.elapsed()` reading at the end of
  the iteration.  A whole run is a stream `Nat → OracleStep`.
* The loop additionally records a trace of oracle invocations (`calls`), so
  that the within-iteration invocation order (baseline first, measured
  second) is an observable fact of the embedding.
-/

namespace OpcodeTiming

/-- Raw outcome of one `time_run_vm` call before any processing: the clock
difference `1000·(cEnd − cStart)/CLOCKS_PER_SEC` (may be negative under clock
jitter), `vm.gas_consumed()`, and the VM return code `~vm.run()`. -/
structure rawRun where
  clockDelta : ℚ
  gasConsumed : ℤ
  retCode : ℤ
deriving DecidableEq

/-- The `runInfo` struct of the source: runtime, gas usage, VM return code. -/
structure runInfo where
  runtime : ℚ
  gasUsage : ℤ
  vmReturnCode : ℤ
deriving DecidableEq

/-- Embedding of `time_run_vm` (lines 81–99): given the raw oracle outcome,
the returned record is `{time >= 0 ? time : 0, vm.gas_consumed(), ret}` —
the runtime is floored at zero, gas and return code are passed through. -/
def time_run_vm (r : rawRun) : runInfo :=
  { runtime := if 0 ≤ r.clockDelta then r.clockDelta else 0
    gasUsage := r.gasConsumed
    vmReturnCode := r.retCode }

/-- The `runInfo::operator+=` of the source (lines 45–52): componentwise sum
of runtime and gas; the return code keeps the first nonzero value seen. -/
def addRunInfo (a b : runInfo) : runInfo :=
  { runtime := a.runtime + b.runtime
    gasUsage := a.gasUsage + b.gasUsage
    vmReturnCode := if a.vmReturnCode = 0 ∧ b.vmReturnCode ≠ 0 then b.vmReturnCode else a.vmReturnCode }

/-- The `errored()` accessor of `runInfo` (lines 54–56). -/
def runInfo.errored (r : runInfo) : Bool :=
  decide (r.vmReturnCode ≠ 0)

/-- The differential sample built at lines 110–111: elementwise subtraction
of the baseline (`value_empty`) run's results from the measured
(`value_code`) run's results; the return code comes from the measured run. -/
def makeDiff (value_code value_empty : runInfo) : runInfo :=
  { runtime := value_code.runtime - value_empty.runtime
    gasUsage := value_code.gasUsage - value_empty.gasUsage
    vmReturnCode := value_code.vmReturnCode }

/-- Which code unit an oracle invocation executed: the empty baseline program
`td::Slice("")` or the measured `command`. -/
inductive Cmd
  | emptyCode
  | measuredCode
deriving DecidableEq

/-- One recorded oracle invocation: which code unit was run and the
(already floored) `runInfo` it returned. -/
structure CallEvent where
  cmd : Cmd
  result : runInfo
deriving DecidableEq

/-- External observations available to one iteration of the sampling loop:
the raw outcome of the baseline call, the raw outcome of the measured call,
and the `t0.elapsed()` reading checked at the end of the iteration. -/
structure OracleStep where
  baselineRaw : rawRun
  measuredRaw : rawRun
  elapsed : ℚ
deriving DecidableEq

/-- Mutable state of the sampling loop in `averageRuntime`: the invocation
trace (implicit in the source's sequencing of `time_run_vm` calls), the
`values` vector, and the running `total`. -/
structure LoopState where
  calls : List CallEvent
  values : List runInfo
  total : runInfo
deriving DecidableEq

/-- The a-priori sample target, `size_t samples = 100000;` (line 102). -/
def targetSamples : Nat := 100000

/-- The minimum sample floor in the stop condition `i + 1 >= 20` (line 114). -/
def sampleFloor : Nat := 20

/-- The wall-clock budget in the stop condition `t0.elapsed() > 2.0`. -/
def timeBudget : ℚ := 2

/-- The sampling loop of `averageRuntime` (lines 107–119), with explicit
fuel equal to the remaining iteration count `samples - i`.  Each iteration
invokes the oracle on the empty baseline program first and the measured
command second (recorded in `calls`), forms the differential sample, appends
it to `values`, adds it to `total`, and then stops early — truncating
`values` to the first `i + 1` entries, as `values.resize(samples)` does —
when the elapsed time exceeds the budget and at least `sampleFloor` samples
have been collected.  Returns the final state and the final `samples`
count. -/
def runLoop (steps : Nat → OracleStep) : Nat → Nat → LoopState → LoopState × Nat
  | 0, i, st => (st, i)
  | fuel + 1, i, st =>
      let value_empty := time_run_vm (steps i).baselineRaw
      let value_code := time_run_vm (steps i).measuredRaw
      let value := makeDiff value_code value_empty
      let st' : LoopState :=
        { calls := st.calls ++ [⟨Cmd.emptyCode, value_empty⟩, ⟨Cmd.measuredCode, value_code⟩]
          values := st.values ++ [value]
          total := addRunInfo st.total value }
      if timeBudget < (steps i).elapsed ∧ sampleFloor ≤ i + 1 then
        ({ st' with values := st'.values.take (i + 1) }, i + 1)
      else
        runLoop steps fuel (i + 1) st'

/-- The sampling phase of `averageRuntime`, generalized over the initial
value of the `samples` variable (the source hardcodes `targetSamples`). -/
def runSamplingWith (target : Nat) (steps : Nat → OracleStep) : LoopState × Nat :=
  runLoop steps target 0 ⟨[], [], ⟨0, 0, 0⟩⟩

/-- The sampling phase of `averageRuntime` as in the source, with the
hardcoded target of 100000 samples. -/
def runSampling (steps : Nat → OracleStep) : LoopState × Nat :=
  runSamplingWith targetSamples steps

/-- The `stats` struct of the source holds a mean and a standard deviation;
here the `variance` field holds the value to which `sqrtl` is applied at
lines 133–134 (the exact real square root is taken by `stats.stddev`). -/
structure stats where
  mean : ℚ
  variance : ℚ
deriving DecidableEq

/-- The reported standard deviation: `sqrtl` applied to the accumulated
squared-difference sum divided by the sample count. -/
noncomputable def stats.stddev (s : stats) : ℝ :=
  Real.sqrt (s.variance : ℝ)

/-- The `runtimeStats` aggregate returned by `averageRuntime`. -/
structure runtimeStats where
  runtime : stats
  gasUsage : stats
  errored : Bool
deriving DecidableEq

/-- The body of the second-pass loop of `averageRuntime` (lines 125–131):
one iteration updates `runtimeDiffSum`, `gasDiffSum` and `errored`. -/
def diffStep (runtimeMean gasMean : ℚ) (acc : ℚ × ℚ × Bool) (value : runInfo) : ℚ × ℚ × Bool :=
  (acc.1 + (value.runtime - runtimeMean) * (value.runtime - runtimeMean),
   acc.2.1 + ((value.gasUsage : ℚ) - gasMean) * ((value.gasUsage : ℚ) - gasMean),
   acc.2.2 || value.errored)

/-- The second pass of `averageRuntime` (lines 122–131): a single fold over
`values` accumulating `runtimeDiffSum`, `gasDiffSum` and `errored`. -/
def diffSums (values : List runInfo) (runtimeMean gasMean : ℚ) : ℚ × ℚ × Bool :=
  values.foldl (diffStep runtimeMean gasMean) (0, 0, false)

/-- The aggregation phase of `averageRuntime` (lines 120–136): means from the
running totals divided by `samples`, population variances from the second
pass divided by `samples`, and the error flag. -/
def aggregate (st : LoopState) (samples : Nat) : runtimeStats :=
  let runtimeMean := st.total.runtime / (samples : ℚ)
  let gasMean := (st.total.gasUsage : ℚ) / (samples : ℚ)
  let s := diffSums st.values runtimeMean gasMean
  { runtime := ⟨runtimeMean, s.1 / (samples : ℚ)⟩
    gasUsage := ⟨gasMean, s.2.1 / (samples : ℚ)⟩
    errored := s.2.2 }

/-- The whole of `averageRuntime` (lines 101–137), generalized over the
initial sample target. -/
def averageRuntimeWith (target : Nat) (steps : Nat → OracleStep) : runtimeStats :=
  let r := runSamplingWith target steps
  aggregate r.1 r.2

/-- The whole of `averageRuntime` as in the source (target 100000). -/
def averageRuntime (steps : Nat → OracleStep) : runtimeStats :=
  averageRuntimeWith targetSamples steps

/-- The differential sample produced by iteration `j` of the loop, as a
function of the oracle stream. -/
def sampleAt (steps : Nat → OracleStep) (j : Nat) : runInfo :=
  makeDiff (time_run_vm (steps j).measuredRaw) (time_run_vm (steps j).baselineRaw)

/-- The two oracle invocations of iteration `j`, in program order: the empty
baseline program first, the measured command second. -/
def callsAt (steps : Nat → OracleStep) (j : Nat) : List CallEvent :=
  [⟨Cmd.emptyCode, time_run_vm (steps j).baselineRaw⟩,
   ⟨Cmd.measuredCode, time_run_vm (steps j).measuredRaw⟩]

/-- Unfolding lemma for one iteration of the sampling loop. -/
theorem runLoop_succ (steps : Nat → OracleStep) (fuel i : Nat) (st : LoopState) :
    runLoop steps (fuel + 1) i st =
      if timeBudget < (steps i).elapsed ∧ sampleFloor ≤ i + 1 then
        ({ calls := st.calls ++ callsAt steps i
           values := (st.values ++ [sampleAt steps i]).take (i + 1)
           total := addRunInfo st.total (sampleAt steps i) }, i + 1)
      else
        runLoop steps fuel (i + 1)
          { calls := st.calls ++ callsAt steps i
            values := st.values ++ [sampleAt steps i]
            total := addRunInfo st.total (sampleAt steps i) } := by
  rw [runLoop]
  rfl

/-- Full characterization of the sampling loop, by induction on the remaining
fuel: the final count `n` lies between `i` and `i + fuel` and above
`min sampleFloor (i + fuel)`; the values, calls and totals are the initial
ones extended by exactly the iterations `i, i+1, …, n-1`; and an early stop
certifies the stop condition at the last iteration. -/
theorem runLoop_spec (steps : Nat → OracleStep) (fuel : Nat) :
    ∀ (i : Nat) (st : LoopState), st.values.length = i →
      i ≤ (runLoop steps fuel i st).2 ∧
      (runLoop steps fuel i st).2 ≤ i + fuel ∧
      min sampleFloor (i + fuel) ≤ (runLoop steps fuel i st).2 ∧
      (runLoop steps fuel i st).1.values
        = st.values ++ (List.range' i ((runLoop steps fuel i st).2 - i)).map (sampleAt steps) ∧
      (runLoop steps fuel i st).1.calls
        = st.calls ++ (List.range' i ((runLoop steps fuel i st).2 - i)).flatMap (callsAt steps) ∧
      (runLoop steps fuel i st).1.total
        = List.foldl addRunInfo st.total
            ((List.range' i ((runLoop steps fuel i st).2 - i)).map (sampleAt steps)) ∧
      ((runLoop steps fuel i st).2 < i + fuel →
        timeBudget < (steps ((runLoop steps fuel i st).2 - 1)).elapsed ∧
          sampleFloor ≤ (runLoop steps fuel i st).2) := by
  induction fuel with
  | zero =>
      intro i st hlen
      simp [runLoop]
  | succ fuel ih =>
      intro i st hlen
      rw [runLoop_succ]
      by_cases hc : timeBudget < (steps i).elapsed ∧ sampleFloor ≤ i + 1
      · rw [if_pos hc]
        have htake : (st.values ++ [sampleAt steps i]).take (i + 1)
            = st.values ++ [sampleAt steps i] := by
          apply List.take_of_length_le
          simp [hlen]
        have hone : i + 1 - i = 1 := by omega
        refine ⟨by omega, by omega, ?_, ?_, ?_, ?_, ?_⟩
        · simp only
          omega
        · simp [htake, hone, List.range'_succ]
        · simp [hone, List.range'_succ, callsAt]
        · simp [hone, List.range'_succ]
        · intro _
          exact ⟨hc.1, hc.2⟩
      · rw [if_neg hc]
        have hlen' : (st.values ++ [sampleAt steps i]).length = i + 1 := by simp [hlen]
        obtain ⟨h1, h2, h3, h4, h5, h6, h7⟩ :=
          ih (i + 1) ⟨st.calls ++ callsAt steps i, st.values ++ [sampleAt steps i],
            addRunInfo st.total (sampleAt steps i)⟩ hlen'
        set n := (runLoop steps fuel (i + 1)
          ⟨st.calls ++ callsAt steps i, st.values ++ [sampleAt steps i],
            addRunInfo st.total (sampleAt steps i)⟩).2 with hn
        have hsub : n - i = (n - (i + 1)) + 1 := by omega
        refine ⟨by omega, by omega, ?_, ?_, ?_, ?_, ?_⟩
        · omega
        · rw [h4, hsub, List.range'_succ, List.map_cons]
          simp
        · rw [h5, hsub, List.range'_succ, List.flatMap_cons]
          simp
        · rw [h6, hsub, List.range'_succ, List.map_cons, List.foldl_cons]
        · intro hlt
          have : n < (i + 1) + fuel := by omega
          exact h7 this

/-- Characterization of the sampling phase as run by the source (target
hardcoded to 100000): bounds on the final count and closed forms for the
retained values, the invocation trace and the running totals. -/
theorem runSampling_spec (steps : Nat → OracleStep) :
    sampleFloor ≤ (runSampling steps).2 ∧
    (runSampling steps).2 ≤ targetSamples ∧
    (runSampling steps).1.values
      = (List.range (runSampling steps).2).map (sampleAt steps) ∧
    (runSampling steps).1.calls
      = (List.range (runSampling steps).2).flatMap (callsAt steps) ∧
    (runSampling steps).1.total
      = List.foldl addRunInfo ⟨0, 0, 0⟩
          ((List.range (runSampling steps).2).map (sampleAt steps)) ∧
    ((runSampling steps).2 < targetSamples →
      timeBudget < (steps ((runSampling steps).2 - 1)).elapsed ∧
        sampleFloor ≤ (runSampling steps).2) := by
  obtain ⟨h1, h2, h3, h4, h5, h6, h7⟩ :=
    runLoop_spec steps targetSamples 0 ⟨[], [], ⟨0, 0, 0⟩⟩ rfl
  have hmin : min sampleFloor (0 + targetSamples) = sampleFloor := by
    simp [sampleFloor, targetSamples]
  rw [hmin] at h3
  refine ⟨h3, by simpa using h2, ?_, ?_, ?_, ?_⟩
  · simpa [runSampling, runSamplingWith, List.range_eq_range'] using h4
  · simpa [runSampling, runSamplingWith, List.range_eq_range'] using h5
  · simpa [runSampling, runSamplingWith, List.range_eq_range'] using h6
  · intro hlt
    exact h7 (by simpa using hlt)

/-- The runtime component of a fold of `addRunInfo` is the starting runtime
plus the sum of the runtimes. -/
theorem foldl_addRunInfo_runtime (l : List runInfo) :
    ∀ z : runInfo, (l.foldl addRunInfo z).runtime = z.runtime + (l.map runInfo.runtime).sum := by
  induction l with
  | nil => intro z; simp
  | cons x l ih =>
      intro z
      rw [List.foldl_cons, ih]
      simp [addRunInfo]
      ring

/-- The gas component of a fold of `addRunInfo` is the starting gas plus the
sum of the gas usages. -/
theorem foldl_addRunInfo_gas (l : List runInfo) :
    ∀ z : runInfo, (l.foldl addRunInfo z).gasUsage = z.gasUsage + (l.map runInfo.gasUsage).sum := by
  induction l with
  | nil => intro z; simp
  | cons x l ih =>
      intro z
      rw [List.foldl_cons, ih]
      simp [addRunInfo]
      ring

/-- Closed form for the second-pass fold, with a general accumulator. -/
theorem diffSums_foldl (rm gm : ℚ) (values : List runInfo) :
    ∀ (a b : ℚ) (e : Bool),
      values.foldl (diffStep rm gm) (a, b, e)
        = (a + (values.map fun v => (v.runtime - rm) * (v.runtime - rm)).sum,
           b + (values.map fun v => ((v.gasUsage : ℚ) - gm) * ((v.gasUsage : ℚ) - gm)).sum,
           e || values.any runInfo.errored) := by
  induction values with
  | nil => intro a b e; simp
  | cons v l ih =>
      intro a b e
      rw [List.foldl_cons, diffStep, ih]
      refine Prod.ext ?_ (Prod.ext ?_ ?_)
      · simp; ring
      · simp; ring
      · simp [Bool.or_assoc]

/-- Closed form for `diffSums`. -/
theorem diffSums_spec (values : List runInfo) (rm gm : ℚ) :
    diffSums values rm gm
      = ((values.map fun v => (v.runtime - rm) * (v.runtime - rm)).sum,
         (values.map fun v => ((v.gasUsage : ℚ) - gm) * ((v.gasUsage : ℚ) - gm)).sum,
         values.any runInfo.errored) := by
  rw [diffSums, diffSums_foldl]
  simp

/-- Closed form for every field of the aggregation phase. -/
theorem aggregate_spec (st : LoopState) (samples : Nat) :
    (aggregate st samples).runtime.mean = st.total.runtime / (samples : ℚ) ∧
    (aggregate st samples).gasUsage.mean = (st.total.gasUsage : ℚ) / (samples : ℚ) ∧
    (aggregate st samples).runtime.variance
      = (st.values.map fun v =>
          (v.runtime - st.total.runtime / (samples : ℚ))
            * (v.runtime - st.total.runtime / (samples : ℚ))).sum / (samples : ℚ) ∧
    (aggregate st samples).gasUsage.variance
      = (st.values.map fun v =>
          ((v.gasUsage : ℚ) - (st.total.gasUsage : ℚ) / (samples : ℚ))
            * ((v.gasUsage : ℚ) - (st.total.gasUsage : ℚ) / (samples : ℚ))).sum / (samples : ℚ) ∧
    (aggregate st samples).errored = st.values.any runInfo.errored := by
  refine ⟨rfl, rfl, ?_, ?_, ?_⟩ <;>
    simp [aggregate, diffSums_spec]

/-- Both variances are quotients of sums of squares by a natural number, so
they are non-negative. -/
theorem aggregate_variance_nonneg (st : LoopState) (samples : Nat) :
    0 ≤ (aggregate st samples).runtime.variance ∧
    0 ≤ (aggregate st samples).gasUsage.variance := by
  obtain ⟨-, -, hv, hg, -⟩ := aggregate_spec st samples
  constructor
  · rw [hv]
    apply div_nonneg _ (by positivity)
    apply List.sum_nonneg
    intro x hx
    simp only [List.mem_map] at hx
    obtain ⟨v, -, rfl⟩ := hx
    exact mul_self_nonneg _
  · rw [hg]
    apply div_nonneg _ (by positivity)
    apply List.sum_nonneg
    intro x hx
    simp only [List.mem_map] at hx
    obtain ⟨v, -, rfl⟩ := hx
    exact mul_self_nonneg _

/-- Replacement of the VM return codes of an oracle stream, leaving clock
readings, gas readings and elapsed-time readings untouched. -/
def withCodes (g : Nat → ℤ × ℤ) (steps : Nat → OracleStep) : Nat → OracleStep :=
  fun i =>
    { baselineRaw := { (steps i).baselineRaw with retCode := (g i).1 }
      measuredRaw := { (steps i).measuredRaw with retCode := (g i).2 }
      elapsed := (steps i).elapsed }

/-- The stopping decision reads only the elapsed-time observations, never the
VM return codes: replacing all return codes leaves the collected count
unchanged. -/
theorem runLoop_count_withCodes (steps : Nat → OracleStep) (g : Nat → ℤ × ℤ) (fuel : Nat) :
    ∀ (i : Nat) (st st' : LoopState),
      (runLoop (withCodes g steps) fuel i st).2 = (runLoop steps fuel i st').2 := by
  induction fuel with
  | zero => intro i st st'; simp [runLoop]
  | succ fuel ih =>
      intro i st st'
      rw [runLoop_succ, runLoop_succ]
      by_cases hc : timeBudget < (steps i).elapsed ∧ sampleFloor ≤ i + 1
      · rw [if_pos hc, if_pos (show timeBudget < (withCodes g steps i).elapsed ∧
          sampleFloor ≤ i + 1 from hc)]
      · rw [if_neg hc, if_neg (show ¬(timeBudget < (withCodes g steps i).elapsed ∧
          sampleFloor ≤ i + 1) from hc)]
        exact ih (i + 1) _ _

/-- If every elapsed-time observation exceeds the budget, the loop never runs
past the sample floor. -/
theorem runLoop_count_always_stop (steps : Nat → OracleStep)
    (h : ∀ j, timeBudget < (steps j).elapsed) (fuel : Nat) :
    ∀ (i : Nat) (st : LoopState), (runLoop steps fuel i st).2 ≤ max (i + 1) sampleFloor := by
  induction fuel with
  | zero => intro i st; simp [runLoop]
  | succ fuel ih =>
      intro i st
      rw [runLoop_succ]
      by_cases hc : timeBudget < (steps i).elapsed ∧ sampleFloor ≤ i + 1
      · rw [if_pos hc]
        simp
      · rw [if_neg hc]
        have hfl : ¬ sampleFloor ≤ i + 1 := fun hh => hc ⟨h i, hh⟩
        have hrec := ih (i + 1)
          ⟨st.calls ++ callsAt steps i, st.values ++ [sampleAt steps i],
            addRunInfo st.total (sampleAt steps i)⟩
        omega

/-- The four-character prefix `"boc:"` tested by `to_cell` (line 16). -/
def bocMarker : List Char := ['b', 'o', 'c', ':']

/-- The decoding branch `to_cell` commits to: the base64-decode-then-
deserialize branch with the payload after the prefix, or the raw hex
bitstring branch with the whole token. -/
inductive DecodeChoice
  | bocBase64 (payload : List Char)
  | hexBits (tok : List Char)
deriving DecidableEq

/-- Embedding of the dispatch in `to_cell` (lines 15–25): a token of size at
least 4 whose first four characters are `boc:` has the prefix removed and the
remainder base64-decoded and deserialized; any other token is parsed as a
hex-encoded bitstring.  The decoding back ends themselves are external
library collaborators; the embedding captures the branch decision and the
slice handed to it. -/
def to_cell (s : List Char) : DecodeChoice :=
  if 4 ≤ s.length ∧ s.take 4 = bocMarker then DecodeChoice.bocBase64 (s.drop 4)
  else DecodeChoice.hexBits s

/-- The resolver exactly as the spec words it (for the refinement claim): a
token whose first four characters are `boc:` is decoded as base64 of the
remainder after the prefix; every other token is decoded as raw hex. -/
def specResolver (s : List Char) : DecodeChoice :=
  if s.take 4 = bocMarker then DecodeChoice.bocBase64 (s.drop 4)
  else DecodeChoice.hexBits s

/-- Decimal digit character for `d % 10`. -/
def natDigitChar (d : Nat) : Char := Char.ofNat (48 + d % 10)

/-- Decimal digit run of a natural number, most significant digit first
(fuel-driven; with fuel `n + 1` all digits of `n` are produced). -/
def natToDigits : Nat → Nat → List Char
  | 0, _ => []
  | fuel + 1, n =>
      if n < 10 then [natDigitChar n]
      else natToDigits fuel (n / 10) ++ [natDigitChar (n % 10)]

/-- The nine digits after the decimal point for a fractional part
`n < 10 ^ 9`, most significant first. -/
def fracDigits9 (n : Nat) : List Char :=
  (List.range 9).map fun i => natDigitChar (n / 10 ^ (8 - i))

/-- Rendering of the integer `m` (the value scaled by `10 ^ 9` and rounded)
as a fixed-point numeral with nine digits after the decimal point: optional
minus sign, integer digits, point, nine fractional digits. -/
def fmtScaled (m : ℤ) : List Char :=
  (if m < 0 then ['-'] else [])
    ++ natToDigits (m.natAbs / 10 ^ 9 + 1) (m.natAbs / 10 ^ 9)
    ++ ['.'] ++ fracDigits9 (m.natAbs % 10 ^ 9)

/-- Rendering of a numeric field by `std::fixed << std::setprecision(9)`
(line 175), modelled as rounding the exact value to nine decimal places and
printing sign, integer part, point and exactly nine fractional digits. -/
noncomputable def fmtFixed9 (x : ℝ) : List Char := fmtScaled (round (x * 10 ^ 9))

/-- The header line printed at line 165. -/
def headerLine : List Char :=
  "OPCODE,runtime mean,runtime stddev,gas mean,gas stddev,error".toList

/-- The CSV data line printed at lines 175–176: the measured-code token, the
four numeric fields, and `1`/`0` for the error flag, comma-separated. -/
noncomputable def dataLine (code : List Char) (t : runtimeStats) : List Char :=
  code ++ [','] ++ fmtFixed9 (t.runtime.mean : ℝ) ++ [','] ++ fmtFixed9 (stats.stddev t.runtime)
    ++ [','] ++ fmtFixed9 (t.gasUsage.mean : ℝ) ++ [','] ++ fmtFixed9 (stats.stddev t.gasUsage)
    ++ [','] ++ (if t.errored then ['1'] else ['0'])

/-- The standard output of a successful invocation of `main` (lines 165–176)
with the given measured-code token, as a list of lines: exactly one header
line followed by exactly one data line. -/
noncomputable def mainOutput (code : List Char) (steps : Nat → OracleStep) : List (List Char) :=
  [headerLine, dataLine code (averageRuntime steps)]

/-- A decimal digit character. -/
def isDigitChar (c : Char) : Prop := 48 ≤ c.toNat ∧ c.toNat ≤ 57

/-- A fixed-point numeral with exactly nine digits after the decimal point:
an optional minus sign, a nonempty run of digits, a point, and exactly nine
digits. -/
def isFixed9 (s : List Char) : Prop :=
  ∃ sign ip fp : List Char,
    s = sign ++ ip ++ ['.'] ++ fp ∧ (sign = [] ∨ sign = ['-']) ∧
    ip ≠ [] ∧ (∀ c ∈ ip, isDigitChar c) ∧ fp.length = 9 ∧ ∀ c ∈ fp, isDigitChar c

/-- A non-negative fixed-point numeral with exactly nine digits after the
decimal point (no sign allowed). -/
def isNonnegFixed9 (s : List Char) : Prop :=
  ∃ ip fp : List Char,
    s = ip ++ ['.'] ++ fp ∧ ip ≠ [] ∧ (∀ c ∈ ip, isDigitChar c) ∧
    fp.length = 9 ∧ ∀ c ∈ fp, isDigitChar c

/-- Digit characters produced by `natDigitChar` are decimal digits. -/
theorem natDigitChar_isDigit (d : Nat) : isDigitChar (natDigitChar d) := by
  have h : d % 10 < 10 := Nat.mod_lt _ (by omega)
  rw [natDigitChar]
  generalize hk : d % 10 = k
  rw [hk] at h
  interval_cases k <;> exact ⟨by decide, by decide⟩

/-- The integer-part digit run is never empty when fuel is positive. -/
theorem natToDigits_ne_nil (fuel n : Nat) : natToDigits (fuel + 1) n ≠ [] := by
  rw [natToDigits]
  by_cases h : n < 10
  · simp [h]
  · simp [h]

/-- All characters of the integer-part digit run are decimal digits. -/
theorem natToDigits_digits (fuel : Nat) :
    ∀ (n : Nat), ∀ c ∈ natToDigits fuel n, isDigitChar c := by
  induction fuel with
  | zero => intro n c hc; simp [natToDigits] at hc
  | succ fuel ih =>
      intro n c hc
      rw [natToDigits] at hc
      by_cases h : n < 10
      · rw [if_pos h] at hc
        simp at hc
        subst hc
        exact natDigitChar_isDigit n
      · rw [if_neg h] at hc
        rcases List.mem_append.mp hc with h1 | h2
        · exact ih _ c h1
        · simp at h2
          subst h2
          exact natDigitChar_isDigit _

/-- There are exactly nine fractional digits. -/
theorem fracDigits9_length (n : Nat) : (fracDigits9 n).length = 9 := by
  simp [fracDigits9]

/-- All fractional characters are decimal digits. -/
theorem fracDigits9_digits (n : Nat) : ∀ c ∈ fracDigits9 n, isDigitChar c := by
  intro c hc
  simp only [fracDigits9, List.mem_map] at hc
  obtain ⟨i, -, rfl⟩ := hc
  exact natDigitChar_isDigit _

/-- Every rendered numeric field is a fixed-point numeral with exactly nine
digits after the decimal point. -/
theorem fmtScaled_isFixed9 (m : ℤ) : isFixed9 (fmtScaled m) := by
  refine ⟨if m < 0 then ['-'] else [], natToDigits (m.natAbs / 10 ^ 9 + 1) (m.natAbs / 10 ^ 9),
    fracDigits9 (m.natAbs % 10 ^ 9), ?_, ?_, ?_, ?_, ?_, ?_⟩
  · simp [fmtScaled]
  · by_cases h : m < 0 <;> simp [h]
  · exact natToDigits_ne_nil _ _
  · exact natToDigits_digits _ _
  · exact fracDigits9_length _
  · exact fracDigits9_digits _

/-- A numeric field rendered from a non-negative scaled value carries no
sign: it is a non-negative fixed-point numeral. -/
theorem fmtScaled_isNonnegFixed9 (m : ℤ) (hm : 0 ≤ m) : isNonnegFixed9 (fmtScaled m) := by
  refine ⟨natToDigits (m.natAbs / 10 ^ 9 + 1) (m.natAbs / 10 ^ 9),
    fracDigits9 (m.natAbs % 10 ^ 9), ?_, ?_, ?_, ?_, ?_⟩
  · simp [fmtScaled, not_lt.mpr hm]
  · exact natToDigits_ne_nil _ _
  · exact natToDigits_digits _ _
  · exact fracDigits9_length _
  · exact fracDigits9_digits _

/-- Rounding a non-negative real is non-negative. -/
theorem round_nonneg_of_nonneg (x : ℝ) (hx : 0 ≤ x) : 0 ≤ round x := by
  rw [round_eq]
  rw [Int.le_floor]
  push_cast
  linarith

/-- A string starting with a minus sign is not a non-negative fixed-point
numeral. -/
theorem not_isNonnegFixed9_minus (s : List Char) : ¬ isNonnegFixed9 ('-' :: s) := by
  rintro ⟨ip, fp, heq, hne, hdig, -, -⟩
  cases ip with
  | nil => exact hne rfl
  | cons c ip' =>
      have hc : '-' = c := by
        have h := congrArg List.headI heq
        simpa using h
      have hd := hdig c (List.mem_cons_self c ip')
      rw [← hc] at hd
      exact absurd hd.1 (by decide)

/-- A concrete oracle stream with mild clock jitter: the baseline call always
reads a larger clock delta (3) than the measured call (2), the gas readings
agree (5), every return code is 0, and every elapsed reading (3) exceeds the
2-unit budget, so the run stops at the 20-sample floor. -/
def negSteps : Nat → OracleStep := fun _ => ⟨⟨3, 5, 0⟩, ⟨2, 5, 0⟩, 3⟩

/-- The `negSteps` run stops at exactly the 20-sample floor. -/
theorem negSteps_count : (runSampling negSteps).2 = 20 := by
  have h1 := (runSampling_spec negSteps).1
  have h2 : (runSampling negSteps).2 ≤ max (0 + 1) sampleFloor :=
    runLoop_count_always_stop negSteps
      (fun j => by norm_num [negSteps, timeBudget]) targetSamples 0 ⟨[], [], ⟨0, 0, 0⟩⟩
  simp [sampleFloor] at h1 h2
  omega

/-- Every differential sample of the `negSteps` run is `⟨-1, 0, 0⟩`. -/
theorem negSteps_sampleAt (j : Nat) : sampleAt negSteps j = ⟨-1, 0, 0⟩ := by
  rw [sampleAt, makeDiff]
  norm_num [negSteps, time_run_vm]

/-- The retained sample sequence of the `negSteps` run is twenty copies of
the differential sample `⟨-1, 0, 0⟩`. -/
theorem negSteps_values :
    (runSampling negSteps).1.values = List.replicate 20 ⟨-1, 0, 0⟩ := by
  have h3 := (runSampling_spec negSteps).2.2.1
  rw [negSteps_count] at h3
  rw [h3]
  rw [List.map_congr_left fun j _ => negSteps_sampleAt j]
  simp [List.map_const']

/-- Runtime and gas totals of the `negSteps` run. -/
theorem negSteps_total :
    (runSampling negSteps).1.total.runtime = -20 ∧
    (runSampling negSteps).1.total.gasUsage = 0 := by
  have h5 := (runSampling_spec negSteps).2.2.2.2.1
  have h3 := (runSampling_spec negSteps).2.2.1
  constructor
  · rw [h5, foldl_addRunInfo_runtime, ← h3, negSteps_values]
    simp [List.map_replicate, List.sum_replicate]
    norm_num
  · rw [h5, foldl_addRunInfo_gas, ← h3, negSteps_values]
    simp [List.map_replicate, List.sum_replicate]

/-- The aggregate of the `negSteps` run: runtime mean `-1` with variance `0`,
gas mean `0` with variance `0`, no error. -/
theorem negSteps_average : averageRuntime negSteps = ⟨⟨-1, 0⟩, ⟨0, 0⟩, false⟩ := by
  obtain ⟨hm, hgm, hv, hgv, he⟩ :=
    aggregate_spec (runSampling negSteps).1 (runSampling negSteps).2
  have hav : averageRuntime negSteps
      = aggregate (runSampling negSteps).1 (runSampling negSteps).2 := rfl
  obtain ⟨hrt, hgs⟩ := negSteps_total
  have e1 : (averageRuntime negSteps).runtime.mean = -1 := by
    rw [hav, hm, hrt, negSteps_count]
    norm_num
  have e2 : (averageRuntime negSteps).runtime.variance = 0 := by
    rw [hav, hv, hrt, negSteps_count, negSteps_values]
    norm_num [List.map_replicate, List.sum_replicate]
  have e3 : (averageRuntime negSteps).gasUsage.mean = 0 := by
    rw [hav, hgm, hgs, negSteps_count]
    norm_num
  have e4 : (averageRuntime negSteps).gasUsage.variance = 0 := by
    rw [hav, hgv, hgs, negSteps_count, negSteps_values]
    norm_num [List.map_replicate, List.sum_replicate]
  have e5 : (averageRuntime negSteps).errored = false := by
    rw [hav, he, negSteps_values]
    decide
  have hsplit : averageRuntime negSteps =
      ⟨⟨(averageRuntime negSteps).runtime.mean, (averageRuntime negSteps).runtime.variance⟩,
       ⟨(averageRuntime negSteps).gasUsage.mean, (averageRuntime negSteps).gasUsage.variance⟩,
       (averageRuntime negSteps).errored⟩ := rfl
  rw [hsplit, e1, e2, e3, e4, e5]

/-- The pipeline's aggregation step applied to its own sampling result. -/
theorem averageRuntime_eq_aggregate (steps : Nat → OracleStep) :
    averageRuntime steps = aggregate (runSampling steps).1 (runSampling steps).2 := rfl

/-- The running runtime total equals the sum of the retained runtimes. -/
theorem total_sum_runtime (steps : Nat → OracleStep) :
    (runSampling steps).1.total.runtime
      = ((runSampling steps).1.values.map runInfo.runtime).sum := by
  have h3 := (runSampling_spec steps).2.2.1
  have h5 := (runSampling_spec steps).2.2.2.2.1
  rw [h5, foldl_addRunInfo_runtime, ← h3]
  simp

/-- The running gas total equals the sum of the retained gas usages. -/
theorem total_sum_gas (steps : Nat → OracleStep) :
    (runSampling steps).1.total.gasUsage
      = ((runSampling steps).1.values.map runInfo.gasUsage).sum := by
  have h3 := (runSampling_spec steps).2.2.1
  have h5 := (runSampling_spec steps).2.2.2.2.1
  rw [h5, foldl_addRunInfo_gas, ← h3]
  simp

/-- The retained sequence holds exactly the reported number of samples. -/
theorem values_length (steps : Nat → OracleStep) :
    (runSampling steps).1.values.length = (runSampling steps).2 := by
  have h3 := (runSampling_spec steps).2.2.1
  simp [h3]

/-- The reported runtime mean is the sum of retained runtimes over N. -/
theorem mean_runtime_eq (steps : Nat → OracleStep) :
    (averageRuntime steps).runtime.mean
      = ((runSampling steps).1.values.map runInfo.runtime).sum
          / ((runSampling steps).2 : ℚ) := by
  rw [averageRuntime_eq_aggregate,
    (aggregate_spec (runSampling steps).1 (runSampling steps).2).1, total_sum_runtime]

/-- The reported gas mean is the sum of retained gas usages over N. -/
theorem mean_gas_eq (steps : Nat → OracleStep) :
    (averageRuntime steps).gasUsage.mean
      = ((((runSampling steps).1.values.map runInfo.gasUsage).sum : ℤ) : ℚ)
          / ((runSampling steps).2 : ℚ) := by
  rw [averageRuntime_eq_aggregate,
    (aggregate_spec (runSampling steps).1 (runSampling steps).2).2.1, total_sum_gas]

/-- The reported runtime variance is the population variance of the retained
runtimes about the reported runtime mean. -/
theorem variance_runtime_eq (steps : Nat → OracleStep) :
    (averageRuntime steps).runtime.variance
      = ((runSampling steps).1.values.map fun v =>
          (v.runtime - (averageRuntime steps).runtime.mean)
            * (v.runtime - (averageRuntime steps).runtime.mean)).sum
          / ((runSampling steps).2 : ℚ) := by
  obtain ⟨hm, -, hv, -, -⟩ := aggregate_spec (runSampling steps).1 (runSampling steps).2
  rw [averageRuntime_eq_aggregate, hm, hv]

/-- The reported gas variance is the population variance of the retained gas
usages about the reported gas mean. -/
theorem variance_gas_eq (steps : Nat → OracleStep) :
    (averageRuntime steps).gasUsage.variance
      = ((runSampling steps).1.values.map fun v =>
          ((v.gasUsage : ℚ) - (averageRuntime steps).gasUsage.mean)
            * ((v.gasUsage : ℚ) - (averageRuntime steps).gasUsage.mean)).sum
          / ((runSampling steps).2 : ℚ) := by
  obtain ⟨-, hgm, -, hgv, -⟩ := aggregate_spec (runSampling steps).1 (runSampling steps).2
  rw [averageRuntime_eq_aggregate, hgm, hgv]

/-- Both reported variances are non-negative. -/
theorem variances_nonneg (steps : Nat → OracleStep) :
    0 ≤ (averageRuntime steps).runtime.variance ∧
    0 ≤ (averageRuntime steps).gasUsage.variance := by
  rw [averageRuntime_eq_aggregate]
  exact aggregate_variance_nonneg _ _

/-- The error flag is the fold of `errored` over the retained samples. -/
theorem errored_iff (steps : Nat → OracleStep) :
    (averageRuntime steps).errored = true ↔
      ∃ v ∈ (runSampling steps).1.values, v.vmReturnCode ≠ 0 := by
  rw [averageRuntime_eq_aggregate,
    (aggregate_spec (runSampling steps).1 (runSampling steps).2).2.2.2.2]
  rw [List.any_eq_true]
  constructor
  · rintro ⟨v, hv, he⟩
    exact ⟨v, hv, of_decide_eq_true he⟩
  · rintro ⟨v, hv, he⟩
    exact ⟨v, hv, decide_eq_true he⟩

/-- C1: for every iteration of the sampling loop, the recorded differential
sample equals the elementwise subtraction of the baseline run's results from
the measured run's results (measured runtime minus baseline runtime, measured
gas minus baseline gas), its completion code is taken from the measured run
only, and within the iteration the baseline code unit (the empty program) is
invoked before the measured code unit, as witnessed by the invocation
trace. -/
theorem claim_C1 (steps : Nat → OracleStep) :
    (runSampling steps).1.calls
      = (List.range (runSampling steps).2).flatMap
          (fun j => [⟨Cmd.emptyCode, time_run_vm (steps j).baselineRaw⟩,
                     ⟨Cmd.measuredCode, time_run_vm (steps j).measuredRaw⟩]) ∧
    (runSampling steps).1.values
      = (List.range (runSampling steps).2).map
          (fun j =>
            { runtime := (time_run_vm (steps j).measuredRaw).runtime
                - (time_run_vm (steps j).baselineRaw).runtime
              gasUsage := (time_run_vm (steps j).measuredRaw).gasUsage
                - (time_run_vm (steps j).baselineRaw).gasUsage
              vmReturnCode := (time_run_vm (steps j).measuredRaw).vmReturnCode }) :=
  ⟨(runSampling_spec steps).2.2.2.1, (runSampling_spec steps).2.2.1⟩

/-- C2: for every run, the reported standard deviations square to the
population variance with denominator N — the exact collected count — about
the reported means, and the means are the sums of the retained samples over
N; moreover N ≥ 1 always holds. -/
theorem claim_C2 (steps : Nat → OracleStep) :
    1 ≤ (runSampling steps).2 ∧
    stats.stddev (averageRuntime steps).runtime ^ 2
      = ((((runSampling steps).1.values.map fun v =>
            (v.runtime - (averageRuntime steps).runtime.mean)
              * (v.runtime - (averageRuntime steps).runtime.mean)).sum
            / ((runSampling steps).2 : ℚ) : ℚ) : ℝ) ∧
    stats.stddev (averageRuntime steps).gasUsage ^ 2
      = ((((runSampling steps).1.values.map fun v =>
            ((v.gasUsage : ℚ) - (averageRuntime steps).gasUsage.mean)
              * ((v.gasUsage : ℚ) - (averageRuntime steps).gasUsage.mean)).sum
            / ((runSampling steps).2 : ℚ) : ℚ) : ℝ) ∧
    (averageRuntime steps).runtime.mean
      = ((runSampling steps).1.values.map runInfo.runtime).sum
          / ((runSampling steps).2 : ℚ) ∧
    (averageRuntime steps).gasUsage.mean
      = ((((runSampling steps).1.values.map runInfo.gasUsage).sum : ℤ) : ℚ)
          / ((runSampling steps).2 : ℚ) := by
  obtain ⟨hv1, hv2⟩ := variances_nonneg steps
  refine ⟨?_, ?_, ?_, mean_runtime_eq steps, mean_gas_eq steps⟩
  · have h := (runSampling_spec steps).1
    have hf : sampleFloor = 20 := rfl
    omega
  · rw [stats.stddev, Real.sq_sqrt (by exact_mod_cast hv1), variance_runtime_eq]
  · rw [stats.stddev, Real.sq_sqrt (by exact_mod_cast hv2), variance_gas_eq]

/-- C3: every run retains between the 20-sample floor and the 100000-sample
target, and a run that stops short of the target certifies the early-stop
condition: the elapsed reading of its last iteration exceeded the 2-unit
budget and at least 20 samples had been collected. -/
theorem claim_C3 (steps : Nat → OracleStep) :
    20 ≤ (runSampling steps).2 ∧
    (runSampling steps).2 ≤ 100000 ∧
    ((runSampling steps).2 = 100000 ∨
      ((2 : ℚ) < (steps ((runSampling steps).2 - 1)).elapsed ∧
        20 ≤ (runSampling steps).2)) := by
  obtain ⟨h1, h2, -, -, -, h7⟩ := runSampling_spec steps
  have hf : sampleFloor = 20 := rfl
  have ht : targetSamples = 100000 := rfl
  refine ⟨by omega, by omega, ?_⟩
  by_cases h : (runSampling steps).2 = 100000
  · exact Or.inl h
  · have hlt : (runSampling steps).2 < targetSamples := by omega
    exact Or.inr ⟨(h7 hlt).1, by omega⟩

/-- C4: the aggregate's error flag is true if and only if at least one
retained sample has a nonzero completion code, and return codes never
influence the stopping decision: replacing every return code in the oracle
stream leaves the collected sample count unchanged. -/
theorem claim_C4 (steps : Nat → OracleStep) :
    ((averageRuntime steps).errored = true ↔
      ∃ v ∈ (runSampling steps).1.values, v.vmReturnCode ≠ 0) ∧
    ∀ g : Nat → ℤ × ℤ,
      (runSampling (withCodes g steps)).2 = (runSampling steps).2 :=
  ⟨errored_iff steps,
   fun g => runLoop_count_withCodes steps g targetSamples 0 _ _⟩

/-- C5: a single oracle invocation's raw runtime is floored at zero (a
negative clock reading is reported as 0), while the per-iteration runtime
differential is the unclamped subtraction and can be negative, as on the
`negSteps` stream where every differential runtime is `-1`. -/
theorem claim_C5 :
    (∀ r : rawRun,
      0 ≤ (time_run_vm r).runtime ∧ (time_run_vm r).runtime = max r.clockDelta 0) ∧
    (∀ (steps : Nat → OracleStep) (j : Nat),
      (sampleAt steps j).runtime
        = (time_run_vm (steps j).measuredRaw).runtime
            - (time_run_vm (steps j).baselineRaw).runtime) ∧
    (sampleAt negSteps 0).runtime = -1 ∧
    (sampleAt negSteps 0).runtime < 0 := by
  refine ⟨fun r => ⟨?_, ?_⟩, fun steps j => rfl, ?_, ?_⟩
  · rcases le_or_lt 0 r.clockDelta with h | h
    · simp [time_run_vm, h]
    · simp [time_run_vm, not_le.mpr h]
  · rcases le_or_lt 0 r.clockDelta with h | h
    · simp [time_run_vm, h, max_eq_left h]
    · simp [time_run_vm, not_le.mpr h, max_eq_right h.le]
  · rw [negSteps_sampleAt]
  · rw [negSteps_sampleAt]
    norm_num

/-- C6 counterexample: the claim asserts a zero sample target is rejected at
the boundary before sampling begins.  The code has no such check: with the
`samples` variable initialized to 0, the loop body never runs and the
aggregation phase still executes with N = 0, producing an ordinary aggregate
(zeros, under the exact-arithmetic convention that division by zero yields
zero) through the same code path as any other run — nothing is rejected. -/
theorem claim_C6_counterexample :
    runSamplingWith 0 negSteps = (⟨[], [], ⟨0, 0, 0⟩⟩, 0) ∧
    averageRuntimeWith 0 negSteps = ⟨⟨0, 0⟩, ⟨0, 0⟩, false⟩ := by
  refine ⟨rfl, ?_⟩
  show aggregate ⟨[], [], ⟨0, 0, 0⟩⟩ 0 = _
  rw [aggregate]
  norm_num [diffSums]

/-- C6 (amended): the target sample count is the hardcoded constant 100000,
which is positive, so a zero target can never occur — the code contains no
boundary rejection, and every actual run retains at least the 20-sample
floor, hence aggregation never executes with N = 0. -/
theorem claim_C6_amended (steps : Nat → OracleStep) :
    targetSamples = 100000 ∧ 0 < targetSamples ∧ 0 < (runSampling steps).2 := by
  refine ⟨rfl, by norm_num [targetSamples], ?_⟩
  have h := (runSampling_spec steps).1
  have hf : sampleFloor = 20 := rfl
  omega

/-- C9: the running totals equal the componentwise sums of the retained
sample sequence, the truncation at early stop discards no sample that was
added to the totals (the retained length is exactly the reported count), and
consequently the reported means are the sums of the retained samples divided
by N. -/
theorem claim_C9 (steps : Nat → OracleStep) :
    (runSampling steps).1.total.runtime
      = ((runSampling steps).1.values.map runInfo.runtime).sum ∧
    (runSampling steps).1.total.gasUsage
      = ((runSampling steps).1.values.map runInfo.gasUsage).sum ∧
    (runSampling steps).1.values.length = (runSampling steps).2 ∧
    (averageRuntime steps).runtime.mean
      = ((runSampling steps).1.values.map runInfo.runtime).sum
          / ((runSampling steps).2 : ℚ) ∧
    (averageRuntime steps).gasUsage.mean
      = ((((runSampling steps).1.values.map runInfo.gasUsage).sum : ℤ) : ℚ)
          / ((runSampling steps).2 : ℚ) :=
  ⟨total_sum_runtime steps, total_sum_gas steps, values_length steps,
   mean_runtime_eq steps, mean_gas_eq steps⟩

/-- C10: both reported standard deviations are non-negative — each is the
square root of a sum of squares divided by N — even though individual
differential samples and the means may be negative. -/
theorem claim_C10 (steps : Nat → OracleStep) :
    0 ≤ stats.stddev (averageRuntime steps).runtime ∧
    0 ≤ stats.stddev (averageRuntime steps).gasUsage ∧
    stats.stddev (averageRuntime steps).runtime
      = Real.sqrt ((((runSampling steps).1.values.map fun v =>
          (v.runtime - (averageRuntime steps).runtime.mean)
            * (v.runtime - (averageRuntime steps).runtime.mean)).sum
          / ((runSampling steps).2 : ℚ) : ℚ) : ℝ) ∧
    stats.stddev (averageRuntime steps).gasUsage
      = Real.sqrt ((((runSampling steps).1.values.map fun v =>
          ((v.gasUsage : ℚ) - (averageRuntime steps).gasUsage.mean)
            * ((v.gasUsage : ℚ) - (averageRuntime steps).gasUsage.mean)).sum
          / ((runSampling steps).2 : ℚ) : ℚ) : ℝ) := by
  refine ⟨Real.sqrt_nonneg _, Real.sqrt_nonneg _, ?_, ?_⟩
  · rw [stats.stddev, variance_runtime_eq]
  · rw [stats.stddev, variance_gas_eq]

/-- C8: the code resolver distinguishes the two textual forms unambiguously
by prefix before decoding — a token whose first four characters are `boc:`
goes to the base64/deserialize branch with the remainder after the prefix,
and every other token goes to the raw-hex branch: `to_cell`'s dispatch
coincides exactly with the resolver as the spec words it. -/
theorem claim_C8 (s : List Char) : to_cell s = specResolver s := by
  rw [to_cell, specResolver]
  by_cases h : s.take 4 = bocMarker
  · have hl := congrArg List.length h
    rw [List.length_take] at hl
    simp [bocMarker] at hl
    have hlen : 4 ≤ s.length := by omega
    rw [if_pos ⟨hlen, h⟩, if_pos h]
  · rw [if_neg fun hh => h hh.2, if_neg h]

/-- A zero-variance `stats` record reports a standard deviation of zero. -/
theorem stddev_of_zero_variance (m : ℚ) : stats.stddev ⟨m, 0⟩ = 0 := by
  rw [stats.stddev]
  norm_num

/-- Rendering the exact value `-1` under fixed-point, nine decimals. -/
theorem fmtFixed9_negOne : fmtFixed9 ((-1 : ℚ) : ℝ) = "-1.000000000".toList := by
  rw [fmtFixed9]
  have h : ((-1 : ℚ) : ℝ) * 10 ^ 9 = ((-(10 ^ 9) : ℤ) : ℝ) := by push_cast; ring
  rw [h, round_intCast]
  decide

/-- Rendering the exact value `0` under fixed-point, nine decimals. -/
theorem fmtFixed9_zero : fmtFixed9 (0 : ℝ) = "0.000000000".toList := by
  rw [fmtFixed9, zero_mul, round_zero]
  decide

/-- C7 (amended): every successful invocation prints exactly one header line
and one CSV data line; the data line starts with the measured-code token,
ends with `0` or `1`, and its four numeric fields are fixed-point numbers
with exactly nine digits after the decimal point, the two standard-deviation
fields being non-negative (sign-free) — the two mean fields may carry a
minus sign. -/
theorem claim_C7_amended (code : List Char) (steps : Nat → OracleStep) :
    ∃ f2 f3 f4 f5 e : List Char,
      mainOutput code steps
        = [headerLine,
           code ++ [','] ++ f2 ++ [','] ++ f3 ++ [','] ++ f4 ++ [','] ++ f5
             ++ [','] ++ e] ∧
      (e = ['0'] ∨ e = ['1']) ∧
      isFixed9 f2 ∧ isFixed9 f3 ∧ isFixed9 f4 ∧ isFixed9 f5 ∧
      isNonnegFixed9 f3 ∧ isNonnegFixed9 f5 := by
  refine ⟨fmtFixed9 ((averageRuntime steps).runtime.mean : ℝ),
    fmtFixed9 (stats.stddev (averageRuntime steps).runtime),
    fmtFixed9 ((averageRuntime steps).gasUsage.mean : ℝ),
    fmtFixed9 (stats.stddev (averageRuntime steps).gasUsage),
    if (averageRuntime steps).errored then ['1'] else ['0'],
    rfl, ?_, ?_, ?_, ?_, ?_, ?_, ?_⟩
  · by_cases h : (averageRuntime steps).errored <;> simp [h]
  · exact fmtScaled_isFixed9 _
  · exact fmtScaled_isFixed9 _
  · exact fmtScaled_isFixed9 _
  · exact fmtScaled_isFixed9 _
  · exact fmtScaled_isNonnegFixed9 _
      (round_nonneg_of_nonneg _ (mul_nonneg (Real.sqrt_nonneg _) (by norm_num)))
  · exact fmtScaled_isNonnegFixed9 _
      (round_nonneg_of_nonneg _ (mul_nonneg (Real.sqrt_nonneg _) (by norm_num)))

/-- C7 counterexample: the claim requires all four numeric fields to be
non-negative on every successful invocation, but the runtime-mean field of
the `negSteps` run is rendered `-1.000000000`, which carries a minus sign
and is not a non-negative fixed-point number. -/
theorem claim_C7_counterexample :
    mainOutput "A90E".toList negSteps
      = [headerLine,
         "A90E,-1.000000000,0.000000000,0.000000000,0.000000000,0".toList] ∧
    ¬ isNonnegFixed9 "-1.000000000".toList := by
  constructor
  · rw [mainOutput, negSteps_average]
    have hd : dataLine "A90E".toList ⟨⟨-1, 0⟩, ⟨0, 0⟩, false⟩
        = "A90E,-1.000000000,0.000000000,0.000000000,0.000000000,0".toList := by
      show "A90E".toList ++ [','] ++ fmtFixed9 ((-1 : ℚ) : ℝ) ++ [',']
          ++ fmtFixed9 (stats.stddev ⟨-1, 0⟩) ++ [','] ++ fmtFixed9 ((0 : ℚ) : ℝ)
          ++ [','] ++ fmtFixed9 (stats.stddev ⟨0, 0⟩) ++ [','] ++ ['0'] = _
      rw [stddev_of_zero_variance, stddev_of_zero_variance]
      have h0 : ((0 : ℚ) : ℝ) = (0 : ℝ) := by norm_num
      rw [h0, fmtFixed9_negOne, fmtFixed9_zero]
      decide
    rw [hd]
  · have h : "-1.000000000".toList = '-' :: "1.000000000".toList := rfl
    rw [h]
    exact not_isNonnegFixed9_minus _

end OpcodeTiming
